import Mathlib

set_option linter.unusedVariables false
set_option linter.unreachableTactic false
set_option linter.unusedTactic false
set_option linter.unnecessarySeqFocus false

/-!
Verification of `src/compare.js` from `@apendua/compare`, a library that
implements a total ordering for JSON values.  The JavaScript source is
embedded shallowly: JS numbers become an inductive `JSNum` (a rational,
one of the two infinities, or NaN), JS strings become lists of UTF-16
code units, and JS values become the inductive `JSValue`.  The builder
of comparison rules and the compiled comparator mirror the `Builder`
class and its `get()` closure from the source.
-/

namespace CompareJs

/-- A JavaScript number: NaN, an infinity, or a finite value.  Every
finite IEEE double is a rational number, so `ℚ` is a faithful carrier
for the finite values that occur in comparisons. -/
inductive JSNum where
  | nan
  | negInf
  | fin (q : ℚ)
  | posInf
deriving DecidableEq

/-- The native `<` of JavaScript on numbers: `NaN` is never less than
anything, `-Infinity` is below every other non-NaN value, `Infinity`
above. -/
def JSNum.ltB : JSNum → JSNum → Bool
  | .nan, _ => false
  | _, .nan => false
  | .negInf, .negInf => false
  | .negInf, .fin _ => true
  | .negInf, .posInf => true
  | .fin _, .negInf => false
  | .fin a, .fin b => decide (a < b)
  | .fin _, .posInf => true
  | .posInf, _ => false

/-- The native `<` of JavaScript on strings: lexicographic comparison of
UTF-16 code units; a proper initial segment of a string is less than
the whole string. -/
def strLtB : List Nat → List Nat → Bool
  | [], [] => false
  | [], _ :: _ => true
  | _ :: _, [] => false
  | a :: as, b :: bs =>
    if a < b then true
    else if b < a then false
    else strLtB as bs

/-- A JavaScript value from the universe this library compares:
`undefined`, `null`, numbers, strings, booleans, dates (carrying their
time value, which is NaN for an invalid date), regular expressions
(carrying the string form that the native `<` coerces them to), arrays,
plain objects (association lists of string keys and values), and
`box`, a class instance of a user-defined tagged class (such as the
`Box` class of the test-suite) whose own enumerable properties are the
given entries. -/
inductive JSValue where
  | undef
  | null
  | num (n : JSNum)
  | str (s : List Nat)
  | bool (b : Bool)
  | date (t : JSNum)
  | regexp (s : List Nat)
  | arr (items : List JSValue)
  | obj (entries : List (List Nat × JSValue))
  | box (entries : List (List Nat × JSValue))

mutual

/-- Structural equality of two `JSValue`s (used only to embed `===` on
the singleton primitives, where reference and structural equality
coincide). -/
def jsEq : JSValue → JSValue → Bool
  | .undef, .undef => true
  | .null, .null => true
  | .num a, .num b => decide (a = b)
  | .str a, .str b => decide (a = b)
  | .bool a, .bool b => a == b
  | .date a, .date b => decide (a = b)
  | .regexp a, .regexp b => decide (a = b)
  | .arr xs, .arr ys => jsEqList xs ys
  | .obj l, .obj m => jsEqEntries l m
  | .box l, .box m => jsEqEntries l m
  | _, _ => false

/-- Elementwise equality of two lists of values. -/
def jsEqList : List JSValue → List JSValue → Bool
  | [], [] => true
  | [], _ :: _ => false
  | _ :: _, [] => false
  | x :: xs, y :: ys => jsEq x y && jsEqList xs ys

/-- Elementwise equality of two entry lists. -/
def jsEqEntries : List (List Nat × JSValue) → List (List Nat × JSValue) → Bool
  | [], [] => true
  | [], _ :: _ => false
  | _ :: _, [] => false
  | (k, v) :: l, (k2, v2) :: m => decide (k = k2) && jsEq v v2 && jsEqEntries l m

end

/-- `isObject(x)` from the source:
`x instanceof Object && Object.prototype.toString.call(x) === '[object Object]'`.
True for plain objects and also for instances of user-defined classes
(which report `'[object Object]'` as well), false for arrays and
primitives. -/
def isObject : JSValue → Bool
  | .obj _ => true
  | .box _ => true
  | _ => false

/-- `isArray(x)` from the source: `Array.isArray(x)`. -/
def isArray : JSValue → Bool
  | .arr _ => true
  | _ => false

/-- `isNumber(x)` from the source: `typeof x === 'number'`. -/
def isNumber : JSValue → Bool
  | .num _ => true
  | _ => false

/-- `isString(x)` from the source: `typeof x === 'string'`. -/
def isString : JSValue → Bool
  | .str _ => true
  | _ => false

/-- `isBoolean(x)` from the source: `typeof x === 'boolean'`. -/
def isBoolean : JSValue → Bool
  | .bool _ => true
  | _ => false

/-- `isDate(x)` from the source: `x instanceof Date`. -/
def isDate : JSValue → Bool
  | .date _ => true
  | _ => false

/-- `isRegExp(x)` from the source: `x instanceof RegExp`. -/
def isRegExp : JSValue → Bool
  | .regexp _ => true
  | _ => false

/-- `isLiteral(x)` from the source: the predicate `y => y === x`.  The
default builder applies it only to the singleton primitives `undefined`
and `null`, on which `===` is plain value equality. -/
def isLiteral (x : JSValue) : JSValue → Bool :=
  fun y => jsEq y x

/-- The native `<` of JavaScript restricted to the shapes on which the
default rules invoke `comparePrimitives`: two numbers, two strings, two
booleans (coerced to 0/1), two dates (coerced to their time values), or
two regular expressions (coerced to their string forms).  Each default
rule only ever applies it to two values of its own category, so the
cross-type coercion cases of JS `<` are never reached and are mapped to
`false`. -/
def jsLt : JSValue → JSValue → Bool
  | .num a, .num b => JSNum.ltB a b
  | .str a, .str b => strLtB a b
  | .bool a, .bool b => !a && b
  | .date a, .date b => JSNum.ltB a b
  | .regexp a, .regexp b => strLtB a b
  | _, _ => false

/-- `comparePrimitives(x, y)` from the source:
`if (x < y) return -1; if (x > y) return 1; return 0;`.
It is generic in the value type; `lt` stands for the native `<` of the
instantiation (on the domains used here, `x > y` is `y < x`).  Because
`NaN < NaN` and `NaN > NaN` are both false, it returns 0 whenever a NaN
is involved.  JS comparators return numbers, embedded as `ℚ`. -/
def comparePrimitives {α : Type} (lt : α → α → Bool) (x y : α) : ℚ :=
  if lt x y then -1
  else if lt y x then 1
  else 0

/-- The `<` on rule indexes (JS numbers, always small integers here). -/
def intLtB (a b : Int) : Bool := decide (a < b)

/-- One key/value entry of a JavaScript object. -/
abbrev Entry := List Nat × JSValue

/-- Insert an entry into an already-sorted entry list, before the first
entry whose key is not strictly below the inserted key.  Keeping
entries with strictly smaller keys in front makes the sort stable, like
`Array.prototype.sort`. -/
def insertEntry (e : Entry) : List Entry → List Entry
  | [] => [e]
  | f :: rest => if strLtB f.1 e.1 then f :: insertEntry e rest else e :: f :: rest

/-- `Object.keys(x).sort()` from `compareObjects`, fused with the value
lookup: JavaScript objects have pairwise distinct keys, so sorting the
key array and indexing `x[keysOfX[i]]` is the same as sorting the
key/value entries by key (with the default sort comparator, which
compares keys as strings) and walking the sorted entries. -/
def sortEntries : List Entry → List Entry
  | [] => []
  | e :: rest => insertEntry e (sortEntries rest)

/-- The own enumerable string-keyed properties of a value, as seen by
`Object.keys` inside `compareObjects`: the entries of a plain object,
or the fields of a class instance such as `Box`. -/
def entriesOf : JSValue → List Entry
  | .obj l => l
  | .box l => l
  | _ => []

/-- The elements of an array value. -/
def itemsOf : JSValue → List JSValue
  | .arr xs => xs
  | _ => []

theorem insertEntry_perm (e : Entry) (m : List Entry) :
    (insertEntry e m).Perm (e :: m) := by
  induction m with
  | nil => simp [insertEntry]
  | cons f fs ihm =>
    by_cases h : strLtB f.1 e.1
    · simp only [insertEntry, if_pos h]
      exact (ihm.cons f).trans (List.Perm.swap e f fs)
    · simp only [insertEntry, if_neg h]
      exact List.Perm.refl _

theorem sortEntries_perm (l : List Entry) : (sortEntries l).Perm l := by
  induction l with
  | nil => simp [sortEntries]
  | cons e rest ih =>
    simp only [sortEntries]
    exact (insertEntry_perm e (sortEntries rest)).trans (ih.cons e)

theorem sizeOf_of_perm {α : Type} [SizeOf α] {l m : List α} (h : l.Perm m) :
    sizeOf l = sizeOf m := by
  induction h with
  | nil => rfl
  | cons x _ ih => simp [ih]
  | swap x y l => simp; omega
  | trans _ _ ih1 ih2 => omega

theorem sizeOf_sortEntries (l : List Entry) : sizeOf (sortEntries l) = sizeOf l :=
  sizeOf_of_perm (sortEntries_perm l)

theorem sizeOf_entriesOf_lt (x : JSValue) (h : isObject x = true) :
    sizeOf (entriesOf x) < sizeOf x := by
  cases x <;> simp_all [isObject, entriesOf] <;> try omega

theorem sizeOf_itemsOf_lt (x : JSValue) (h : isArray x = true) :
    sizeOf (itemsOf x) < sizeOf x := by
  cases x <;> simp_all [isArray, itemsOf] <;> try omega

/-- One rule of the builder: a classification predicate together with an
optional comparator; a rule without a comparator is a bare type marker
that defers to the structural object/array comparison. -/
structure Plugin where
  predicate : JSValue → Bool
  compare : Option (JSValue → JSValue → ℚ)

/-- The scanning loop of `get()`:
`for k; if (predicate(x)) i = k;` — remembers the highest index whose
predicate accepts `x`, starting from `-1`. -/
def lastMatchAux (ps : List Plugin) (x : JSValue) (k : Int) (acc : Int) : Int :=
  match ps with
  | [] => acc
  | p :: rest => lastMatchAux rest x (k + 1) (if p.predicate x then k else acc)

/-- The index `i` computed by the loop in `get()` for a value `x`: the
highest rule index whose predicate accepts `x`, or `-1` if none does. -/
def lastMatch (ps : List Plugin) (x : JSValue) : Int :=
  lastMatchAux ps x 0 (-1)

/-- The comparator carried by rule `i`, when `i ≥ 0` and the rule has
one (`if (i >= 0) { const { compare: cmp } = this.#plugins[i]; if (cmp) ... }`). -/
def ruleCompare (ps : List Plugin) (i : Int) : Option (JSValue → JSValue → ℚ) :=
  if i < 0 then none
  else
    match ps.get? i.toNat with
    | some p => p.compare
    | none => none

mutual

/-- The compiled comparator returned by `Builder.get()`, as a function
of the rule list it is closed over: compute the highest matching rule
index of each argument; distinct indexes are decided by
`comparePrimitives` on the indexes; a shared index whose rule carries a
comparator delegates to it; otherwise fall through to the structural
object/array comparison, and to 0 when the left value is neither. -/
def compareWith (ps : List Plugin) (x y : JSValue) : ℚ :=
  let i := lastMatch ps x
  let j := lastMatch ps y
  if i ≠ j then comparePrimitives intLtB i j
  else
    match ruleCompare ps i with
    | some cmp => cmp x y
    | none =>
      if hox : isObject x = true then
        if isObject y = true then
          compareEntriesWith ps (sortEntries (entriesOf x)) (sortEntries (entriesOf y))
        else -1
      else if hax : isArray x = true then
        if isArray y = true then compareItemsWith ps (itemsOf x) (itemsOf y)
        else 1
      else 0
termination_by sizeOf x + sizeOf y
decreasing_by
  have h1 := sizeOf_sortEntries (entriesOf x)
  have h2 := sizeOf_sortEntries (entriesOf y)
  have h3 := sizeOf_entriesOf_lt x hox
  have h4 := sizeOf_entriesOf_lt y (by assumption)
  omega
  have h3 := sizeOf_itemsOf_lt x hax
  have h4 := sizeOf_itemsOf_lt y (by assumption)
  omega

/-- The loop of `compareObjects(x, y, compareProperties)` over the two
key-sorted entry sequences: at each position compare the keys first
(`comparePrimitives`), a nonzero result deciding immediately; on equal
keys compare the corresponding values, a nonzero result
short-circuiting; when the overlapping part is exhausted, the final
`comparePrimitives(n, m)` on the key counts makes the object with fewer
keys the smaller one. -/
def compareEntriesWith (ps : List Plugin) : List Entry → List Entry → ℚ
  | [], [] => 0
  | [], _ :: _ => -1
  | _ :: _, [] => 1
  | (k1, v1) :: t1, (k2, v2) :: t2 =>
    let r := comparePrimitives strLtB k1 k2
    if r ≠ 0 then r
    else
      let r2 := compareWith ps v1 v2
      if r2 ≠ 0 then r2 else compareEntriesWith ps t1 t2
termination_by l1 l2 => sizeOf l1 + sizeOf l2
decreasing_by
  all_goals simp
  all_goals omega

/-- The loop of `compareArrays(x, y, compareItems)`: walk the elements
pairwise, return the first nonzero element comparison; the final
`comparePrimitives(n, m)` on the lengths makes the shorter array the
smaller one. -/
def compareItemsWith (ps : List Plugin) : List JSValue → List JSValue → ℚ
  | [], [] => 0
  | [], _ :: _ => -1
  | _ :: _, [] => 1
  | a :: t1, b :: t2 =>
    let r := compareWith ps a b
    if r ≠ 0 then r else compareItemsWith ps t1 t2
termination_by l1 l2 => sizeOf l1 + sizeOf l2
decreasing_by
  all_goals simp
  all_goals omega

end

/-- The `Builder` class: an immutable holder of the accumulated rule
list (`#plugins`). -/
structure Builder where
  plugins : List Plugin

/-- `Builder.ifType(predicate, compare)`: a new builder whose rule list
is the old one with the given leaf rule appended, so that values of the
new type come after any other type defined so far. -/
def Builder.ifType (b : Builder) (predicate : JSValue → Bool)
    (compare : JSValue → JSValue → ℚ) : Builder :=
  ⟨b.plugins ++ [⟨predicate, some compare⟩]⟩

/-- `Builder.thenTypeObject()`: a new builder with the bare object type
marker appended (no comparator — objects defer to the structural
comparison). -/
def Builder.thenTypeObject (b : Builder) : Builder :=
  ⟨b.plugins ++ [⟨isObject, none⟩]⟩

/-- `Builder.thenTypeArray()`: a new builder with the bare array type
marker appended. -/
def Builder.thenTypeArray (b : Builder) : Builder :=
  ⟨b.plugins ++ [⟨isArray, none⟩]⟩

/-- `Builder.get()`: compile the current rule list into a comparison
function closed over it.  (The `compareFnCache` map declared at the top
of the source `get()` is never read or written afterwards; being dead
code it is dropped here.) -/
def Builder.get (b : Builder) : JSValue → JSValue → ℚ :=
  compareWith b.plugins

/-- `Builder.create()`: the empty builder. -/
def Builder.create : Builder := ⟨[]⟩

/-- The default builder of the library, mimicking the MongoDB total
order on BSON values: undefined, null, numbers, strings, objects,
arrays, booleans, dates, regular expressions. -/
def builder : Builder :=
  ((((((((Builder.create.ifType
    (isLiteral .undef) (fun _ _ => 0)).ifType
    (isLiteral .null) (fun _ _ => 0)).ifType
    isNumber (comparePrimitives jsLt)).ifType
    isString (comparePrimitives jsLt)).thenTypeObject).thenTypeArray).ifType
    isBoolean (comparePrimitives jsLt)).ifType
    isDate (comparePrimitives jsLt)).ifType
    isRegExp (comparePrimitives jsLt)

/-- The default compiled comparator exported by the library. -/
def compare : JSValue → JSValue → ℚ := builder.get

/-- The common shape of the two structural loops: walk two lists in
lockstep, return the first nonzero comparison; when the overlapping
part is exhausted the shorter list is smaller (the source expresses
the tail with `comparePrimitives(n, m)` on the lengths). -/
def lexLoop {α : Type} (c : α → α → ℚ) : List α → List α → ℚ
  | [], [] => 0
  | [], _ :: _ => -1
  | _ :: _, [] => 1
  | a :: as, b :: bs =>
    let r := c a b
    if r ≠ 0 then r else lexLoop c as bs

/-- One position of the `compareObjects` loop: the keys first
(`comparePrimitives`, a nonzero result decides), then the values. -/
def entryCompare (cmp : JSValue → JSValue → ℚ) (e1 e2 : Entry) : ℚ :=
  let r := comparePrimitives strLtB e1.1 e2.1
  if r ≠ 0 then r else cmp e1.2 e2.2

/-- `compareArrays(x, y, compareItems)` from the source. -/
def compareArrays (x y : List JSValue) (compareItems : JSValue → JSValue → ℚ) : ℚ :=
  lexLoop compareItems x y

/-- `compareObjects(x, y, compareProperties)` from the source, on the
entry-list representation of the two objects: sort each object's
entries by key independently (`Object.keys(...).sort()`; keys in a
JavaScript object are pairwise distinct, so carrying each value with
its key is the same as indexing `x[keysOfX[i]]` afterwards) and walk
the two sorted sequences in lockstep, keys before values at each
position. -/
def compareObjects (x y : List Entry) (compareProperties : JSValue → JSValue → ℚ) : ℚ :=
  lexLoop (entryCompare compareProperties) (sortEntries x) (sortEntries y)

theorem compareItemsWith_eq (ps : List Plugin) (xs ys : List JSValue) :
    compareItemsWith ps xs ys = lexLoop (compareWith ps) xs ys := by
  induction xs generalizing ys with
  | nil => cases ys <;> simp [compareItemsWith, lexLoop]
  | cons a as ih =>
    cases ys with
    | nil => simp [compareItemsWith, lexLoop]
    | cons b bs => simp [compareItemsWith, lexLoop, ih]

theorem compareEntriesWith_eq (ps : List Plugin) (lx ly : List Entry) :
    compareEntriesWith ps lx ly = lexLoop (entryCompare (compareWith ps)) lx ly := by
  induction lx generalizing ly with
  | nil => cases ly <;> simp [compareEntriesWith, lexLoop]
  | cons e es ih =>
    cases ly with
    | nil => simp [compareEntriesWith, lexLoop]
    | cons f fs =>
      obtain ⟨k1, v1⟩ := e
      obtain ⟨k2, v2⟩ := f
      by_cases hk : comparePrimitives strLtB k1 k2 = 0
      · by_cases hv : compareWith ps v1 v2 = 0
        · simp [compareEntriesWith, lexLoop, entryCompare, hk, hv, ih]
        · simp [compareEntriesWith, lexLoop, entryCompare, hk, hv]
      · simp [compareEntriesWith, lexLoop, entryCompare, hk]

/-- The default category of a value: its highest matching rule index in
the default rule list.  Class instances such as `box` match the object
rule. -/
def catIdx : JSValue → Int
  | .undef => 0
  | .null => 1
  | .num _ => 2
  | .str _ => 3
  | .obj _ => 4
  | .box _ => 4
  | .arr _ => 5
  | .bool _ => 6
  | .date _ => 7
  | .regexp _ => 8

mutual

/-- No NaN anywhere in the value: every number is a genuine number and
every date is valid. -/
def nanFree : JSValue → Bool
  | .num n => decide (n ≠ JSNum.nan)
  | .date t => decide (t ≠ JSNum.nan)
  | .arr xs => nanFreeList xs
  | .obj l => nanFreeEntries l
  | .box l => nanFreeEntries l
  | _ => true

/-- All elements of the list are NaN-free. -/
def nanFreeList : List JSValue → Bool
  | [] => true
  | x :: xs => nanFree x && nanFreeList xs

/-- All values of the entry list are NaN-free. -/
def nanFreeEntries : List Entry → Bool
  | [] => true
  | (_, v) :: l => nanFree v && nanFreeEntries l

end

theorem builder_plugins :
    builder.plugins =
      [⟨isLiteral .undef, some (fun _ _ => 0)⟩,
       ⟨isLiteral .null, some (fun _ _ => 0)⟩,
       ⟨isNumber, some (comparePrimitives jsLt)⟩,
       ⟨isString, some (comparePrimitives jsLt)⟩,
       ⟨isObject, none⟩,
       ⟨isArray, none⟩,
       ⟨isBoolean, some (comparePrimitives jsLt)⟩,
       ⟨isDate, some (comparePrimitives jsLt)⟩,
       ⟨isRegExp, some (comparePrimitives jsLt)⟩] := rfl

theorem lastMatch_default (x : JSValue) : lastMatch builder.plugins x = catIdx x := by
  cases x <;>
    simp [lastMatch, lastMatchAux, builder_plugins, catIdx, isLiteral, jsEq,
      isNumber, isString, isObject, isArray, isBoolean, isDate, isRegExp]

theorem compare_def (x y : JSValue) : compare x y = compareWith builder.plugins x y := rfl

theorem ruleCompare_default_0 :
    ruleCompare builder.plugins 0 = some (fun _ _ => 0) := rfl

theorem ruleCompare_default_1 :
    ruleCompare builder.plugins 1 = some (fun _ _ => 0) := rfl

theorem ruleCompare_default_2 :
    ruleCompare builder.plugins 2 = some (comparePrimitives jsLt) := rfl

theorem ruleCompare_default_3 :
    ruleCompare builder.plugins 3 = some (comparePrimitives jsLt) := rfl

theorem ruleCompare_default_4 : ruleCompare builder.plugins 4 = none := rfl

theorem ruleCompare_default_5 : ruleCompare builder.plugins 5 = none := rfl

theorem ruleCompare_default_6 :
    ruleCompare builder.plugins 6 = some (comparePrimitives jsLt) := rfl

theorem ruleCompare_default_7 :
    ruleCompare builder.plugins 7 = some (comparePrimitives jsLt) := rfl

theorem ruleCompare_default_8 :
    ruleCompare builder.plugins 8 = some (comparePrimitives jsLt) := rfl

theorem compare_cross {x y : JSValue} (h : catIdx x ≠ catIdx y) :
    compare x y = comparePrimitives intLtB (catIdx x) (catIdx y) := by
  rw [compare_def, compareWith.eq_def]
  simp [lastMatch_default, h]

theorem compare_undef : compare .undef .undef = 0 := by
  rw [compare_def, compareWith.eq_def]
  simp [lastMatch_default, catIdx, ruleCompare_default_0]

theorem compare_null : compare .null .null = 0 := by
  rw [compare_def, compareWith.eq_def]
  simp [lastMatch_default, catIdx, ruleCompare_default_1]

theorem compare_num (a b : JSNum) :
    compare (.num a) (.num b) = comparePrimitives JSNum.ltB a b := by
  rw [compare_def, compareWith.eq_def]
  simp [lastMatch_default, catIdx, ruleCompare_default_2, comparePrimitives, jsLt]

theorem compare_str (a b : List Nat) :
    compare (.str a) (.str b) = comparePrimitives strLtB a b := by
  rw [compare_def, compareWith.eq_def]
  simp [lastMatch_default, catIdx, ruleCompare_default_3, comparePrimitives, jsLt]

theorem compare_bool (a b : Bool) :
    compare (.bool a) (.bool b) = comparePrimitives (fun u v => !u && v) a b := by
  rw [compare_def, compareWith.eq_def]
  simp [lastMatch_default, catIdx, ruleCompare_default_6, comparePrimitives, jsLt]

theorem compare_date (a b : JSNum) :
    compare (.date a) (.date b) = comparePrimitives JSNum.ltB a b := by
  rw [compare_def, compareWith.eq_def]
  simp [lastMatch_default, catIdx, ruleCompare_default_7, comparePrimitives, jsLt]

theorem compare_regexp (a b : List Nat) :
    compare (.regexp a) (.regexp b) = comparePrimitives strLtB a b := by
  rw [compare_def, compareWith.eq_def]
  simp [lastMatch_default, catIdx, ruleCompare_default_8, comparePrimitives, jsLt]

theorem compare_objLike {x y : JSValue} (hx : isObject x = true) (hy : isObject y = true) :
    compare x y =
      lexLoop (entryCompare compare) (sortEntries (entriesOf x)) (sortEntries (entriesOf y)) := by
  have hcx : catIdx x = 4 := by cases x <;> simp_all [isObject, catIdx]
  have hcy : catIdx y = 4 := by cases y <;> simp_all [isObject, catIdx]
  rw [compare_def, compareWith.eq_def]
  simp [lastMatch_default, hcx, hcy, ruleCompare_default_4, hx, hy,
    compareEntriesWith_eq]
  rfl

theorem compare_arr (xs ys : List JSValue) :
    compare (.arr xs) (.arr ys) = lexLoop compare xs ys := by
  rw [compare_def, compareWith.eq_def]
  simp [lastMatch_default, catIdx, ruleCompare_default_5, isObject, isArray,
    itemsOf, compareItemsWith_eq]
  rfl


/-! ### Order-theoretic facts about the primitive comparisons -/

theorem comparePrimitives_eq_neg_one {α : Type} (lt : α → α → Bool) (a b : α) :
    comparePrimitives lt a b = -1 ↔ lt a b = true := by
  unfold comparePrimitives
  by_cases h : lt a b <;> by_cases h2 : lt b a <;> simp [h, h2] <;> norm_num

theorem comparePrimitives_eq_one {α : Type} (lt : α → α → Bool) (a b : α) :
    comparePrimitives lt a b = 1 ↔ (lt a b = false ∧ lt b a = true) := by
  unfold comparePrimitives
  by_cases h : lt a b <;> by_cases h2 : lt b a <;> simp [h, h2] <;> norm_num

theorem comparePrimitives_eq_zero {α : Type} (lt : α → α → Bool) (a b : α) :
    comparePrimitives lt a b = 0 ↔ (lt a b = false ∧ lt b a = false) := by
  unfold comparePrimitives
  by_cases h : lt a b <;> by_cases h2 : lt b a <;> simp [h, h2] <;> norm_num

theorem comparePrimitives_range {α : Type} (lt : α → α → Bool) (a b : α) :
    comparePrimitives lt a b = -1 ∨ comparePrimitives lt a b = 0 ∨
      comparePrimitives lt a b = 1 := by
  unfold comparePrimitives
  by_cases h : lt a b <;> by_cases h2 : lt b a <;> simp [h, h2]

theorem comparePrimitives_antisym {α : Type} (lt : α → α → Bool) (a b : α)
    (hasym : lt a b = true → lt b a = false) :
    comparePrimitives lt a b = -(comparePrimitives lt b a) := by
  unfold comparePrimitives
  by_cases h : lt a b
  · simp [h, hasym h]
  · by_cases h2 : lt b a <;> simp [h, h2]

theorem comparePrimitives_irrefl {α : Type} (lt : α → α → Bool) (a : α)
    (hirr : lt a a = false) : comparePrimitives lt a a = 0 := by
  simp [comparePrimitives, hirr]

/-- The transitivity facts needed about a comparator `c` at the three
points `x, y, z` for results read as `-1` (below), `0` (tied), `1`
(above): strictly-below composes with strictly-below and with ties on
either side, and ties compose to a tie. -/
abbrev TransAt {α : Type} (c : α → α → ℚ) (x y z : α) : Prop :=
  (c x y = -1 → c y z = -1 → c x z = -1) ∧
  (c x y = -1 → c y z = 0 → c x z = -1) ∧
  (c x y = 0 → c y z = -1 → c x z = -1) ∧
  (c x y = 0 → c y z = 0 → c x z = 0)

theorem comparePrimitives_transAt {α : Type} (lt : α → α → Bool) (a b c : α)
    (htr : lt a b = true → lt b c = true → lt a c = true)
    (hab : lt a b = false → lt b a = false → a = b)
    (hbc : lt b c = false → lt c b = false → b = c)
    (hirr : lt a a = false) :
    TransAt (comparePrimitives lt) a b c := by
  refine ⟨?_, ?_, ?_, ?_⟩
  · intro h1 h2
    rw [comparePrimitives_eq_neg_one] at h1 h2 ⊢
    exact htr h1 h2
  · intro h1 h2
    rw [comparePrimitives_eq_zero] at h2
    rw [hbc h2.1 h2.2] at h1
    exact h1
  · intro h1 h2
    rw [comparePrimitives_eq_zero] at h1
    rw [hab h1.1 h1.2]
    exact h2
  · intro h1 h2
    rw [comparePrimitives_eq_zero] at h1 h2
    rw [hab h1.1 h1.2, hbc h2.1 h2.2]
    exact comparePrimitives_irrefl lt c (by
      have := hbc h2.1 h2.2
      subst this
      have := hab h1.1 h1.2
      subst this
      exact hirr)

theorem JSNum.ltB_irrefl (a : JSNum) : JSNum.ltB a a = false := by
  cases a <;> simp [JSNum.ltB]

theorem JSNum.ltB_asymm {a b : JSNum} (h : JSNum.ltB a b = true) :
    JSNum.ltB b a = false := by
  cases a <;> cases b <;> simp_all [JSNum.ltB] <;> linarith

theorem JSNum.ltB_trans {a b c : JSNum} (h1 : JSNum.ltB a b = true)
    (h2 : JSNum.ltB b c = true) : JSNum.ltB a c = true := by
  cases a <;> cases b <;> cases c <;> simp_all [JSNum.ltB] <;> linarith

theorem JSNum.ltB_eq_of_not {a b : JSNum} (ha : a ≠ JSNum.nan) (hb : b ≠ JSNum.nan)
    (h1 : JSNum.ltB a b = false) (h2 : JSNum.ltB b a = false) : a = b := by
  cases a <;> cases b <;> simp_all [JSNum.ltB] <;> linarith

theorem strLtB_irrefl (a : List Nat) : strLtB a a = false := by
  induction a with
  | nil => rfl
  | cons x xs ih => simp [strLtB, ih]

theorem strLtB_asymm {a b : List Nat} (h : strLtB a b = true) : strLtB b a = false := by
  induction a generalizing b with
  | nil =>
    cases b with
    | nil => simp [strLtB] at h
    | cons y ys => simp [strLtB]
  | cons x xs ih =>
    cases b with
    | nil => simp [strLtB] at h
    | cons y ys =>
      simp only [strLtB] at h ⊢
      by_cases hxy : x < y
      · have : ¬ y < x := by omega
        simp [hxy, this]
      · by_cases hyx : y < x
        · simp [hxy, hyx] at h
        · simp only [hxy, hyx, if_neg, if_false] at h ⊢
          simp [ih h]

theorem strLtB_trans {a b c : List Nat} (h1 : strLtB a b = true)
    (h2 : strLtB b c = true) : strLtB a c = true := by
  induction a generalizing b c with
  | nil =>
    cases b with
    | nil => simp [strLtB] at h1
    | cons y ys =>
      cases c with
      | nil => simp [strLtB] at h2
      | cons z zs => simp [strLtB]
  | cons x xs ih =>
    cases b with
    | nil => simp [strLtB] at h1
    | cons y ys =>
      cases c with
      | nil => simp [strLtB] at h2
      | cons z zs =>
        simp only [strLtB] at h1 h2 ⊢
        by_cases hxy : x < y
        · by_cases hyz : y < z
          · have hxz : x < z := by omega
            simp [hxz]
          · by_cases hzy : z < y
            · simp [hyz, hzy] at h2
            · have hyz2 : y = z := by omega
              subst hyz2
              simp [hxy]
        · by_cases hyx : y < x
          · simp [hxy, hyx] at h1
          · have hxy2 : x = y := by omega
            subst hxy2
            simp only [hxy, hyx, if_false] at h1
            by_cases hxz : x < z
            · simp [hxz]
            · by_cases hzx : z < x
              · simp [hxz, hzx] at h2
              · simp only [hxz, hzx, if_false] at h2 ⊢
                exact ih h1 h2

theorem strLtB_eq_of_not {a b : List Nat} (h1 : strLtB a b = false)
    (h2 : strLtB b a = false) : a = b := by
  induction a generalizing b with
  | nil =>
    cases b with
    | nil => rfl
    | cons y ys => simp [strLtB] at h1
  | cons x xs ih =>
    cases b with
    | nil => simp [strLtB] at h2
    | cons y ys =>
      simp only [strLtB] at h1 h2
      by_cases hxy : x < y
      · simp [hxy] at h1
      · by_cases hyx : y < x
        · simp [hyx, hxy] at h2
        · simp only [hxy, hyx, if_false] at h1 h2
          have hxyeq : x = y := by omega
          subst hxyeq
          rw [ih h1 h2]


/-! ### Lexicographic combination -/

/-- A comparison result of the library is one of the literals -1, 0, 1. -/
abbrev InRange (q : ℚ) : Prop := q = -1 ∨ q = 0 ∨ q = 1

theorem lexCombine_transAt {α : Type} (c1 c2 : α → α → ℚ) (x y z : α)
    (H1 : TransAt c1 x y z) (H2 : TransAt c2 x y z) :
    TransAt (fun u v => if c1 u v ≠ 0 then c1 u v else c2 u v) x y z := by
  obtain ⟨t1, t2, t3, t4⟩ := H1
  obtain ⟨s1, s2, s3, s4⟩ := H2
  refine ⟨?_, ?_, ?_, ?_⟩ <;> intro h1 h2 <;> simp only at h1 h2 ⊢
  · by_cases k1 : c1 x y = 0
    · simp only [k1, ne_eq, not_true_eq_false, if_false] at h1
      by_cases k2 : c1 y z = 0
      · simp only [k2, ne_eq, not_true_eq_false, if_false] at h2
        simp only [t4 k1 k2, ne_eq, not_true_eq_false, if_false]
        exact s1 h1 h2
      · simp only [ne_eq, k2, not_false_eq_true, if_true] at h2
        have h13 := t3 k1 h2
        simp [h13]
    · simp only [ne_eq, k1, not_false_eq_true, if_true] at h1
      by_cases k2 : c1 y z = 0
      · simp only [k2, ne_eq, not_true_eq_false, if_false] at h2
        have h13 := t2 h1 k2
        simp [h13]
      · simp only [ne_eq, k2, not_false_eq_true, if_true] at h2
        have h13 := t1 h1 h2
        simp [h13]
  · by_cases k2 : c1 y z = 0
    · simp only [k2, ne_eq, not_true_eq_false, if_false] at h2
      by_cases k1 : c1 x y = 0
      · simp only [k1, ne_eq, not_true_eq_false, if_false] at h1
        simp only [t4 k1 k2, ne_eq, not_true_eq_false, if_false]
        exact s2 h1 h2
      · simp only [ne_eq, k1, not_false_eq_true, if_true] at h1
        have h13 := t2 h1 k2
        simp [h13]
    · simp only [ne_eq, k2, not_false_eq_true, if_true] at h2
  · by_cases k1 : c1 x y = 0
    · simp only [k1, ne_eq, not_true_eq_false, if_false] at h1
      by_cases k2 : c1 y z = 0
      · simp only [k2, ne_eq, not_true_eq_false, if_false] at h2
        simp only [t4 k1 k2, ne_eq, not_true_eq_false, if_false]
        exact s3 h1 h2
      · simp only [ne_eq, k2, not_false_eq_true, if_true] at h2
        have h13 := t3 k1 h2
        simp [h13]
    · simp only [ne_eq, k1, not_false_eq_true, if_true] at h1
  · by_cases k1 : c1 x y = 0
    · simp only [k1, ne_eq, not_true_eq_false, if_false] at h1
      by_cases k2 : c1 y z = 0
      · simp only [k2, ne_eq, not_true_eq_false, if_false] at h2
        simp only [t4 k1 k2, ne_eq, not_true_eq_false, if_false]
        exact s4 h1 h2
      · simp only [ne_eq, k2, not_false_eq_true, if_true] at h2
    · simp only [ne_eq, k1, not_false_eq_true, if_true] at h1

theorem lexCombine_antisym {α : Type} (c1 c2 : α → α → ℚ) (x y : α)
    (H1 : c1 x y = -(c1 y x)) (H2 : c2 x y = -(c2 y x)) :
    (if c1 x y ≠ 0 then c1 x y else c2 x y) =
      -(if c1 y x ≠ 0 then c1 y x else c2 y x) := by
  by_cases k : c1 x y = 0
  · have k2 : c1 y x = 0 := by rw [k] at H1; linarith
    simp [k, k2, H2]
  · have k2 : c1 y x ≠ 0 := by
      intro hz
      rw [hz] at H1
      simp at H1
      exact k H1
    simp [k, k2, H1]

theorem lexCombine_range {α : Type} (c1 c2 : α → α → ℚ) (x y : α)
    (H1 : InRange (c1 x y)) (H2 : InRange (c2 x y)) :
    InRange (if c1 x y ≠ 0 then c1 x y else c2 x y) := by
  by_cases k : c1 x y = 0 <;> simp [k]
  · exact H2
  · exact H1

theorem lexLoop_transAt {α : Type} (c : α → α → ℚ) (xs ys zs : List α)
    (H : ∀ a ∈ xs, ∀ b ∈ ys, ∀ d ∈ zs, TransAt c a b d) :
    TransAt (lexLoop c) xs ys zs := by
  induction xs generalizing ys zs with
  | nil =>
    cases ys <;> cases zs <;>
      · refine ⟨?_, ?_, ?_, ?_⟩ <;> intro h1 h2 <;>
          first
            | rfl
            | exact h1
            | exact h2
            | (exfalso; norm_num [lexLoop] at h1; done)
            | (exfalso; norm_num [lexLoop] at h2; done)
  | cons a as ih =>
    cases ys with
    | nil =>
      cases zs <;>
        · refine ⟨?_, ?_, ?_, ?_⟩ <;> intro h1 h2 <;>
            first
              | rfl
              | exact h1
              | exact h2
              | (exfalso; norm_num [lexLoop] at h1; done)
              | (exfalso; norm_num [lexLoop] at h2; done)
    | cons b bs =>
      cases zs with
      | nil =>
        refine ⟨?_, ?_, ?_, ?_⟩ <;> intro h1 h2 <;>
          first
            | rfl
            | exact h1
            | exact h2
            | (exfalso; norm_num [lexLoop] at h1; done)
            | (exfalso; norm_num [lexLoop] at h2; done)
      | cons d ds =>
        have Helem : TransAt c a b d := H a (by simp) b (by simp) d (by simp)
        have Htail : TransAt (lexLoop c) as bs ds :=
          ih bs ds fun u hu v hv w hw =>
            H u (by simp [hu]) v (by simp [hv]) w (by simp [hw])
        exact lexCombine_transAt (fun (p q : α × List α) => c p.1 q.1)
          (fun (p q : α × List α) => lexLoop c p.2 q.2) (a, as) (b, bs) (d, ds)
          Helem Htail

theorem lexLoop_antisym {α : Type} (c : α → α → ℚ) (xs ys : List α)
    (H : ∀ a ∈ xs, ∀ b ∈ ys, c a b = -(c b a)) :
    lexLoop c xs ys = -(lexLoop c ys xs) := by
  induction xs generalizing ys with
  | nil => cases ys <;> norm_num [lexLoop]
  | cons a as ih =>
    cases ys with
    | nil => norm_num [lexLoop]
    | cons b bs =>
      have Helem : c a b = -(c b a) := H a (by simp) b (by simp)
      have Htail : lexLoop c as bs = -(lexLoop c bs as) :=
        ih bs fun u hu v hv => H u (by simp [hu]) v (by simp [hv])
      exact lexCombine_antisym (fun (p q : α × List α) => c p.1 q.1)
        (fun (p q : α × List α) => lexLoop c p.2 q.2) (a, as) (b, bs) Helem Htail

theorem lexLoop_refl {α : Type} (c : α → α → ℚ) (xs : List α)
    (H : ∀ a ∈ xs, c a a = 0) : lexLoop c xs xs = 0 := by
  induction xs with
  | nil => rfl
  | cons a as ih =>
    have ha : c a a = 0 := H a (by simp)
    have ht : lexLoop c as as = 0 := ih fun u hu => H u (by simp [hu])
    simp [lexLoop, ha, ht]

theorem lexLoop_range {α : Type} (c : α → α → ℚ) (xs ys : List α)
    (H : ∀ a ∈ xs, ∀ b ∈ ys, InRange (c a b)) :
    InRange (lexLoop c xs ys) := by
  induction xs generalizing ys with
  | nil =>
    cases ys <;> simp [lexLoop, InRange]
  | cons a as ih =>
    cases ys with
    | nil => simp [lexLoop, InRange]
    | cons b bs =>
      have Helem : InRange (c a b) := H a (by simp) b (by simp)
      have Htail : InRange (lexLoop c as bs) :=
        ih bs fun u hu v hv => H u (by simp [hu]) v (by simp [hv])
      exact lexCombine_range (fun (p q : α × List α) => c p.1 q.1)
        (fun (p q : α × List α) => lexLoop c p.2 q.2) (a, as) (b, bs) Helem Htail

/-! ### The entry comparison inherits the properties of its parts -/

theorem entryCompare_transAt (cmp : JSValue → JSValue → ℚ) (e1 e2 e3 : Entry)
    (Hv : TransAt cmp e1.2 e2.2 e3.2) :
    TransAt (entryCompare cmp) e1 e2 e3 :=
  lexCombine_transAt (fun (u v : Entry) => comparePrimitives strLtB u.1 v.1)
    (fun (u v : Entry) => cmp u.2 v.2) e1 e2 e3
    (comparePrimitives_transAt strLtB e1.1 e2.1 e3.1
      (fun h1 h2 => strLtB_trans h1 h2)
      (fun h1 h2 => strLtB_eq_of_not h1 h2)
      (fun h1 h2 => strLtB_eq_of_not h1 h2)
      (strLtB_irrefl e1.1)) Hv

theorem entryCompare_antisym (cmp : JSValue → JSValue → ℚ) (e1 e2 : Entry)
    (Hv : cmp e1.2 e2.2 = -(cmp e2.2 e1.2)) :
    entryCompare cmp e1 e2 = -(entryCompare cmp e2 e1) :=
  lexCombine_antisym (fun (u v : Entry) => comparePrimitives strLtB u.1 v.1)
    (fun (u v : Entry) => cmp u.2 v.2) e1 e2
    (comparePrimitives_antisym strLtB e1.1 e2.1 fun h => strLtB_asymm h) Hv

theorem entryCompare_refl (cmp : JSValue → JSValue → ℚ) (e : Entry)
    (Hv : cmp e.2 e.2 = 0) : entryCompare cmp e e = 0 := by
  have hk : comparePrimitives strLtB e.1 e.1 = 0 :=
    comparePrimitives_irrefl strLtB e.1 (strLtB_irrefl e.1)
  simp [entryCompare, hk, Hv]

theorem entryCompare_range (cmp : JSValue → JSValue → ℚ) (e1 e2 : Entry)
    (Hv : InRange (cmp e1.2 e2.2)) : InRange (entryCompare cmp e1 e2) :=
  lexCombine_range (fun (u v : Entry) => comparePrimitives strLtB u.1 v.1)
    (fun (u v : Entry) => cmp u.2 v.2) e1 e2
    (comparePrimitives_range strLtB e1.1 e2.1) Hv


/-! ### Size and NaN-freeness transport -/

theorem JSValue.one_le_sizeOf (x : JSValue) : 1 ≤ sizeOf x := by
  cases x <;> simp <;> omega

theorem sizeOf_snd_lt_entries {l : List Entry} {e : Entry} (he : e ∈ l) :
    sizeOf e.2 < sizeOf l := by
  have h1 := List.sizeOf_lt_of_mem he
  obtain ⟨k, v⟩ := e
  simp at h1 ⊢
  omega

theorem sizeOf_snd_lt_objLike {x : JSValue} (hx : isObject x = true) {e : Entry}
    (he : e ∈ sortEntries (entriesOf x)) : sizeOf e.2 < sizeOf x := by
  have hmem : e ∈ entriesOf x := ((sortEntries_perm (entriesOf x)).mem_iff).mp he
  have h1 := sizeOf_snd_lt_entries hmem
  have h2 := sizeOf_entriesOf_lt x hx
  omega

theorem sizeOf_item_lt {xs : List JSValue} {a : JSValue} (ha : a ∈ xs) :
    sizeOf a < sizeOf (JSValue.arr xs) := by
  have h1 := List.sizeOf_lt_of_mem ha
  simp
  omega

theorem nanFreeEntries_mem {l : List Entry} (h : nanFreeEntries l = true) {e : Entry}
    (he : e ∈ l) : nanFree e.2 = true := by
  induction l with
  | nil => cases he
  | cons f fs ih =>
    obtain ⟨k, v⟩ := f
    simp only [nanFreeEntries, Bool.and_eq_true] at h
    rcases List.mem_cons.mp he with rfl | hmem
    · exact h.1
    · exact ih h.2 hmem

theorem nanFreeList_mem {xs : List JSValue} (h : nanFreeList xs = true) {a : JSValue}
    (ha : a ∈ xs) : nanFree a = true := by
  induction xs with
  | nil => cases ha
  | cons f fs ih =>
    simp only [nanFreeList, Bool.and_eq_true] at h
    rcases List.mem_cons.mp ha with rfl | hmem
    · exact h.1
    · exact ih h.2 hmem

theorem nanFree_of_mem_entries {x : JSValue} (hx : isObject x = true)
    (hn : nanFree x = true) {e : Entry} (he : e ∈ sortEntries (entriesOf x)) :
    nanFree e.2 = true := by
  have hmem : e ∈ entriesOf x := ((sortEntries_perm (entriesOf x)).mem_iff).mp he
  cases x with
  | obj l => exact nanFreeEntries_mem hn hmem
  | box l => exact nanFreeEntries_mem hn hmem
  | undef => exact absurd hx (by simp [isObject])
  | null => exact absurd hx (by simp [isObject])
  | num a => exact absurd hx (by simp [isObject])
  | str a => exact absurd hx (by simp [isObject])
  | bool a => exact absurd hx (by simp [isObject])
  | date a => exact absurd hx (by simp [isObject])
  | regexp a => exact absurd hx (by simp [isObject])
  | arr a => exact absurd hx (by simp [isObject])

/-! ### Shapes from categories, and the index comparison -/

theorem eq_undef_of_cat {y : JSValue} (h : catIdx y = 0) : y = JSValue.undef := by
  cases y <;> simp [catIdx] at h <;> rfl

theorem eq_null_of_cat {y : JSValue} (h : catIdx y = 1) : y = JSValue.null := by
  cases y <;> simp [catIdx] at h <;> rfl

theorem eq_num_of_cat {y : JSValue} (h : catIdx y = 2) : ∃ b, y = JSValue.num b := by
  cases y <;> simp [catIdx] at h <;> exact ⟨_, rfl⟩

theorem eq_str_of_cat {y : JSValue} (h : catIdx y = 3) : ∃ s, y = JSValue.str s := by
  cases y <;> simp [catIdx] at h <;> exact ⟨_, rfl⟩

theorem objLike_of_cat {y : JSValue} (h : catIdx y = 4) : isObject y = true := by
  cases y <;> simp [catIdx, isObject] at h ⊢

theorem eq_arr_of_cat {y : JSValue} (h : catIdx y = 5) : ∃ ys, y = JSValue.arr ys := by
  cases y <;> simp [catIdx] at h <;> exact ⟨_, rfl⟩

theorem eq_bool_of_cat {y : JSValue} (h : catIdx y = 6) : ∃ b, y = JSValue.bool b := by
  cases y <;> simp [catIdx] at h <;> exact ⟨_, rfl⟩

theorem eq_date_of_cat {y : JSValue} (h : catIdx y = 7) : ∃ t, y = JSValue.date t := by
  cases y <;> simp [catIdx] at h <;> exact ⟨_, rfl⟩

theorem eq_regexp_of_cat {y : JSValue} (h : catIdx y = 8) : ∃ s, y = JSValue.regexp s := by
  cases y <;> simp [catIdx] at h <;> exact ⟨_, rfl⟩

theorem intLtB_asymm {i j : Int} (h : intLtB i j = true) : intLtB j i = false := by
  simp [intLtB] at h ⊢
  omega

theorem intCmp_eq_neg_one {i j : Int} : comparePrimitives intLtB i j = -1 ↔ i < j := by
  rw [comparePrimitives_eq_neg_one]
  simp [intLtB]

theorem intCmp_eq_one {i j : Int} : comparePrimitives intLtB i j = 1 ↔ j < i := by
  rw [comparePrimitives_eq_one]
  simp [intLtB]
  omega

theorem intCmp_ne_zero {i j : Int} (h : i ≠ j) : comparePrimitives intLtB i j ≠ 0 := by
  rw [Ne, comparePrimitives_eq_zero]
  simp [intLtB]
  omega

theorem boolLt_asymm : ∀ a b : Bool, (!a && b) = true → (!b && a) = false := by decide

theorem boolLt_irrefl : ∀ a : Bool, (!a && a) = false := by decide

theorem boolLt_trans : ∀ a b c : Bool,
    (!a && b) = true → (!b && c) = true → (!a && c) = true := by decide

theorem boolLt_eq_of_not : ∀ a b : Bool,
    (!a && b) = false → (!b && a) = false → a = b := by decide

/-! ### The default comparator: range, antisymmetry, reflexivity -/

theorem compare_range_aux :
    ∀ (n : Nat) (x y : JSValue), sizeOf x + sizeOf y ≤ n → InRange (compare x y) := by
  intro n
  induction n with
  | zero =>
    intro x y hsz
    have h1 := JSValue.one_le_sizeOf x
    have h2 := JSValue.one_le_sizeOf y
    omega
  | succ n ih =>
    intro x y hsz
    by_cases hcat : catIdx x = catIdx y
    · cases x with
      | undef =>
        rw [eq_undef_of_cat hcat.symm, compare_undef]
        simp [InRange]
      | null =>
        rw [eq_null_of_cat hcat.symm, compare_null]
        simp [InRange]
      | num a =>
        obtain ⟨b, rfl⟩ := eq_num_of_cat hcat.symm
        rw [compare_num]
        exact comparePrimitives_range _ _ _
      | str a =>
        obtain ⟨b, rfl⟩ := eq_str_of_cat hcat.symm
        rw [compare_str]
        exact comparePrimitives_range _ _ _
      | bool a =>
        obtain ⟨b, rfl⟩ := eq_bool_of_cat hcat.symm
        rw [compare_bool]
        exact comparePrimitives_range _ _ _
      | date a =>
        obtain ⟨b, rfl⟩ := eq_date_of_cat hcat.symm
        rw [compare_date]
        exact comparePrimitives_range _ _ _
      | regexp a =>
        obtain ⟨b, rfl⟩ := eq_regexp_of_cat hcat.symm
        rw [compare_regexp]
        exact comparePrimitives_range _ _ _
      | arr xs =>
        obtain ⟨ys, rfl⟩ := eq_arr_of_cat hcat.symm
        rw [compare_arr]
        apply lexLoop_range
        intro a ha b hb
        apply ih
        have s1 := sizeOf_item_lt ha
        have s2 := sizeOf_item_lt hb
        omega
      | obj l =>
        have hx : isObject (JSValue.obj l) = true := rfl
        have hy : isObject y = true := objLike_of_cat hcat.symm
        rw [compare_objLike hx hy]
        apply lexLoop_range
        intro e1 he1 e2 he2
        apply entryCompare_range
        apply ih
        have s1 := sizeOf_snd_lt_objLike hx he1
        have s2 := sizeOf_snd_lt_objLike hy he2
        omega
      | box l =>
        have hx : isObject (JSValue.box l) = true := rfl
        have hy : isObject y = true := objLike_of_cat hcat.symm
        rw [compare_objLike hx hy]
        apply lexLoop_range
        intro e1 he1 e2 he2
        apply entryCompare_range
        apply ih
        have s1 := sizeOf_snd_lt_objLike hx he1
        have s2 := sizeOf_snd_lt_objLike hy he2
        omega
    · rw [compare_cross hcat]
      exact comparePrimitives_range _ _ _

theorem compare_antisym_aux :
    ∀ (n : Nat) (x y : JSValue), sizeOf x + sizeOf y ≤ n →
      compare x y = -(compare y x) := by
  intro n
  induction n with
  | zero =>
    intro x y hsz
    have h1 := JSValue.one_le_sizeOf x
    have h2 := JSValue.one_le_sizeOf y
    omega
  | succ n ih =>
    intro x y hsz
    by_cases hcat : catIdx x = catIdx y
    · cases x with
      | undef =>
        rw [eq_undef_of_cat hcat.symm, compare_undef]
        norm_num
      | null =>
        rw [eq_null_of_cat hcat.symm, compare_null]
        norm_num
      | num a =>
        obtain ⟨b, rfl⟩ := eq_num_of_cat hcat.symm
        rw [compare_num, compare_num]
        exact comparePrimitives_antisym _ _ _ fun h => JSNum.ltB_asymm h
      | str a =>
        obtain ⟨b, rfl⟩ := eq_str_of_cat hcat.symm
        rw [compare_str, compare_str]
        exact comparePrimitives_antisym _ _ _ fun h => strLtB_asymm h
      | bool a =>
        obtain ⟨b, rfl⟩ := eq_bool_of_cat hcat.symm
        rw [compare_bool, compare_bool]
        exact comparePrimitives_antisym _ _ _ fun h => boolLt_asymm a b h
      | date a =>
        obtain ⟨b, rfl⟩ := eq_date_of_cat hcat.symm
        rw [compare_date, compare_date]
        exact comparePrimitives_antisym _ _ _ fun h => JSNum.ltB_asymm h
      | regexp a =>
        obtain ⟨b, rfl⟩ := eq_regexp_of_cat hcat.symm
        rw [compare_regexp, compare_regexp]
        exact comparePrimitives_antisym _ _ _ fun h => strLtB_asymm h
      | arr xs =>
        obtain ⟨ys, rfl⟩ := eq_arr_of_cat hcat.symm
        rw [compare_arr, compare_arr]
        apply lexLoop_antisym
        intro a ha b hb
        apply ih
        have s1 := sizeOf_item_lt ha
        have s2 := sizeOf_item_lt hb
        omega
      | obj l =>
        have hx : isObject (JSValue.obj l) = true := rfl
        have hy : isObject y = true := objLike_of_cat hcat.symm
        rw [compare_objLike hx hy, compare_objLike hy hx]
        apply lexLoop_antisym
        intro e1 he1 e2 he2
        apply entryCompare_antisym
        apply ih
        have s1 := sizeOf_snd_lt_objLike hx he1
        have s2 := sizeOf_snd_lt_objLike hy he2
        omega
      | box l =>
        have hx : isObject (JSValue.box l) = true := rfl
        have hy : isObject y = true := objLike_of_cat hcat.symm
        rw [compare_objLike hx hy, compare_objLike hy hx]
        apply lexLoop_antisym
        intro e1 he1 e2 he2
        apply entryCompare_antisym
        apply ih
        have s1 := sizeOf_snd_lt_objLike hx he1
        have s2 := sizeOf_snd_lt_objLike hy he2
        omega
    · rw [compare_cross hcat, compare_cross fun h => hcat h.symm]
      exact comparePrimitives_antisym _ _ _ fun h => intLtB_asymm h

theorem compare_refl_aux :
    ∀ (n : Nat) (x : JSValue), sizeOf x ≤ n → compare x x = 0 := by
  intro n
  induction n with
  | zero =>
    intro x hsz
    have h1 := JSValue.one_le_sizeOf x
    omega
  | succ n ih =>
    intro x hsz
    cases x with
    | undef => exact compare_undef
    | null => exact compare_null
    | num a =>
      rw [compare_num]
      exact comparePrimitives_irrefl _ _ (JSNum.ltB_irrefl a)
    | str a =>
      rw [compare_str]
      exact comparePrimitives_irrefl _ _ (strLtB_irrefl a)
    | bool a =>
      rw [compare_bool]
      exact comparePrimitives_irrefl _ _ (boolLt_irrefl a)
    | date a =>
      rw [compare_date]
      exact comparePrimitives_irrefl _ _ (JSNum.ltB_irrefl a)
    | regexp a =>
      rw [compare_regexp]
      exact comparePrimitives_irrefl _ _ (strLtB_irrefl a)
    | arr xs =>
      rw [compare_arr]
      apply lexLoop_refl
      intro a ha
      apply ih
      have s1 := sizeOf_item_lt ha
      omega
    | obj l =>
      have hx : isObject (JSValue.obj l) = true := rfl
      rw [compare_objLike hx hx]
      apply lexLoop_refl
      intro e he
      apply entryCompare_refl
      apply ih
      have s1 := sizeOf_snd_lt_objLike hx he
      omega
    | box l =>
      have hx : isObject (JSValue.box l) = true := rfl
      rw [compare_objLike hx hx]
      apply lexLoop_refl
      intro e he
      apply entryCompare_refl
      apply ih
      have s1 := sizeOf_snd_lt_objLike hx he
      omega

theorem compare_range (x y : JSValue) : InRange (compare x y) :=
  compare_range_aux (sizeOf x + sizeOf y) x y (le_refl _)

theorem compare_antisym_all (x y : JSValue) : compare x y = -(compare y x) :=
  compare_antisym_aux (sizeOf x + sizeOf y) x y (le_refl _)

theorem compare_refl_all (x : JSValue) : compare x x = 0 :=
  compare_refl_aux (sizeOf x) x (le_refl _)


/-! ### The default comparator: transitivity on NaN-free values -/

theorem nanFree_num {a : JSNum} (h : nanFree (JSValue.num a) = true) : a ≠ JSNum.nan := by
  simpa [nanFree] using h

theorem nanFree_date {a : JSNum} (h : nanFree (JSValue.date a) = true) : a ≠ JSNum.nan := by
  simpa [nanFree] using h

theorem nanFree_of_mem_items {xs : List JSValue}
    (h : nanFree (JSValue.arr xs) = true) {a : JSValue} (ha : a ∈ xs) :
    nanFree a = true :=
  nanFreeList_mem h ha

theorem compare_transAt_aux :
    ∀ (n : Nat) (x y z : JSValue), sizeOf x + sizeOf y + sizeOf z ≤ n →
      nanFree x = true → nanFree y = true → nanFree z = true →
      TransAt compare x y z := by
  intro n
  induction n with
  | zero =>
    intro x y z hsz _ _ _
    have hx := JSValue.one_le_sizeOf x
    have hy := JSValue.one_le_sizeOf y
    have hz := JSValue.one_le_sizeOf z
    omega
  | succ n ih =>
    intro x y z hsz hnx hny hnz
    by_cases h1 : catIdx x = catIdx y
    · by_cases h2 : catIdx y = catIdx z
      · -- all three values share one category
        cases x with
        | undef =>
          rw [eq_undef_of_cat h1.symm] at h2 hny ⊢
          rw [eq_undef_of_cat h2.symm] at hnz ⊢
          simp only [TransAt, compare_undef]
          norm_num
        | null =>
          rw [eq_null_of_cat h1.symm] at h2 hny ⊢
          rw [eq_null_of_cat h2.symm] at hnz ⊢
          simp only [TransAt, compare_null]
          norm_num
        | num a =>
          obtain ⟨b, rfl⟩ := eq_num_of_cat h1.symm
          obtain ⟨c, rfl⟩ := eq_num_of_cat h2.symm
          simp only [TransAt, compare_num]
          exact comparePrimitives_transAt JSNum.ltB a b c
            (fun p q => JSNum.ltB_trans p q)
            (fun p q => JSNum.ltB_eq_of_not (nanFree_num hnx) (nanFree_num hny) p q)
            (fun p q => JSNum.ltB_eq_of_not (nanFree_num hny) (nanFree_num hnz) p q)
            (JSNum.ltB_irrefl a)
        | str a =>
          obtain ⟨b, rfl⟩ := eq_str_of_cat h1.symm
          obtain ⟨c, rfl⟩ := eq_str_of_cat h2.symm
          simp only [TransAt, compare_str]
          exact comparePrimitives_transAt strLtB a b c
            (fun p q => strLtB_trans p q)
            (fun p q => strLtB_eq_of_not p q)
            (fun p q => strLtB_eq_of_not p q)
            (strLtB_irrefl a)
        | bool a =>
          obtain ⟨b, rfl⟩ := eq_bool_of_cat h1.symm
          obtain ⟨c, rfl⟩ := eq_bool_of_cat h2.symm
          simp only [TransAt, compare_bool]
          exact comparePrimitives_transAt (fun u v => !u && v) a b c
            (fun p q => boolLt_trans a b c p q)
            (fun p q => boolLt_eq_of_not a b p q)
            (fun p q => boolLt_eq_of_not b c p q)
            (boolLt_irrefl a)
        | date a =>
          obtain ⟨b, rfl⟩ := eq_date_of_cat h1.symm
          obtain ⟨c, rfl⟩ := eq_date_of_cat h2.symm
          simp only [TransAt, compare_date]
          exact comparePrimitives_transAt JSNum.ltB a b c
            (fun p q => JSNum.ltB_trans p q)
            (fun p q => JSNum.ltB_eq_of_not (nanFree_date hnx) (nanFree_date hny) p q)
            (fun p q => JSNum.ltB_eq_of_not (nanFree_date hny) (nanFree_date hnz) p q)
            (JSNum.ltB_irrefl a)
        | regexp a =>
          obtain ⟨b, rfl⟩ := eq_regexp_of_cat h1.symm
          obtain ⟨c, rfl⟩ := eq_regexp_of_cat h2.symm
          simp only [TransAt, compare_regexp]
          exact comparePrimitives_transAt strLtB a b c
            (fun p q => strLtB_trans p q)
            (fun p q => strLtB_eq_of_not p q)
            (fun p q => strLtB_eq_of_not p q)
            (strLtB_irrefl a)
        | arr xs =>
          obtain ⟨ys, rfl⟩ := eq_arr_of_cat h1.symm
          obtain ⟨zs, rfl⟩ := eq_arr_of_cat h2.symm
          simp only [TransAt, compare_arr]
          apply lexLoop_transAt
          intro a ha b hb d hd
          apply ih
          · have s1 := sizeOf_item_lt ha
            have s2 := sizeOf_item_lt hb
            have s3 := sizeOf_item_lt hd
            omega
          · exact nanFree_of_mem_items hnx ha
          · exact nanFree_of_mem_items hny hb
          · exact nanFree_of_mem_items hnz hd
        | obj l =>
          have hx : isObject (JSValue.obj l) = true := rfl
          have hy : isObject y = true := objLike_of_cat h1.symm
          have hz : isObject z = true := objLike_of_cat (h2.symm.trans h1.symm)
          simp only [TransAt, compare_objLike hx hy, compare_objLike hy hz,
            compare_objLike hx hz]
          apply lexLoop_transAt
          intro e1 he1 e2 he2 e3 he3
          apply entryCompare_transAt
          apply ih
          · have s1 := sizeOf_snd_lt_objLike hx he1
            have s2 := sizeOf_snd_lt_objLike hy he2
            have s3 := sizeOf_snd_lt_objLike hz he3
            omega
          · exact nanFree_of_mem_entries hx hnx he1
          · exact nanFree_of_mem_entries hy hny he2
          · exact nanFree_of_mem_entries hz hnz he3
        | box l =>
          have hx : isObject (JSValue.box l) = true := rfl
          have hy : isObject y = true := objLike_of_cat h1.symm
          have hz : isObject z = true := objLike_of_cat (h2.symm.trans h1.symm)
          simp only [TransAt, compare_objLike hx hy, compare_objLike hy hz,
            compare_objLike hx hz]
          apply lexLoop_transAt
          intro e1 he1 e2 he2 e3 he3
          apply entryCompare_transAt
          apply ih
          · have s1 := sizeOf_snd_lt_objLike hx he1
            have s2 := sizeOf_snd_lt_objLike hy he2
            have s3 := sizeOf_snd_lt_objLike hz he3
            omega
          · exact nanFree_of_mem_entries hx hnx he1
          · exact nanFree_of_mem_entries hy hny he2
          · exact nanFree_of_mem_entries hz hnz he3
      · -- x and y share a category, z is in a different one
        refine ⟨?_, ?_, ?_, ?_⟩ <;> intro p q
        · rw [compare_cross h2] at q
          have hq := intCmp_eq_neg_one.mp q
          have hxz : catIdx x ≠ catIdx z := by omega
          rw [compare_cross hxz]
          exact intCmp_eq_neg_one.mpr (by omega)
        · rw [compare_cross h2] at q
          exact absurd q (intCmp_ne_zero h2)
        · rw [compare_cross h2] at q
          have hq := intCmp_eq_neg_one.mp q
          have hxz : catIdx x ≠ catIdx z := by omega
          rw [compare_cross hxz]
          exact intCmp_eq_neg_one.mpr (by omega)
        · rw [compare_cross h2] at q
          exact absurd q (intCmp_ne_zero h2)
    · -- x and y are in different categories
      refine ⟨?_, ?_, ?_, ?_⟩ <;> intro p q
      · rw [compare_cross h1] at p
        have hp := intCmp_eq_neg_one.mp p
        by_cases h2 : catIdx y = catIdx z
        · have hxz : catIdx x ≠ catIdx z := by omega
          rw [compare_cross hxz]
          exact intCmp_eq_neg_one.mpr (by omega)
        · rw [compare_cross h2] at q
          have hq := intCmp_eq_neg_one.mp q
          have hxz : catIdx x ≠ catIdx z := by omega
          rw [compare_cross hxz]
          exact intCmp_eq_neg_one.mpr (by omega)
      · rw [compare_cross h1] at p
        have hp := intCmp_eq_neg_one.mp p
        by_cases h2 : catIdx y = catIdx z
        · have hxz : catIdx x ≠ catIdx z := by omega
          rw [compare_cross hxz]
          exact intCmp_eq_neg_one.mpr (by omega)
        · rw [compare_cross h2] at q
          exact absurd q (intCmp_ne_zero h2)
      · rw [compare_cross h1] at p
        exact absurd p (intCmp_ne_zero h1)
      · rw [compare_cross h1] at p
        exact absurd p (intCmp_ne_zero h1)

theorem compare_transAt (x y z : JSValue) (hnx : nanFree x = true)
    (hny : nanFree y = true) (hnz : nanFree z = true) : TransAt compare x y z :=
  compare_transAt_aux (sizeOf x + sizeOf y + sizeOf z) x y z (le_refl _) hnx hny hnz


theorem JSNum.ltB_nan_right (r : JSNum) : JSNum.ltB r JSNum.nan = false := by
  cases r <;> rfl

theorem JSNum.ltB_nan_left (r : JSNum) : JSNum.ltB JSNum.nan r = false := by
  cases r <;> rfl

/-! ### Claim theorems -/

/-- C1 counterexample: the compiled default comparator is not transitive
over the full JSON-like universe.  With `x = 0`, `y = NaN`, `z = 1` the
tie clause fails: `compare(0, NaN) = 0` and `compare(NaN, 1) = 0` but
`compare(0, 1) = -1 ≠ 0`.  With `x = [1,9]`, `y = [NaN,10]`,
`z = [0,11]` the strict clause fails as well: `compare(x,y) = -1` and
`compare(y,z) = -1` but `compare(x,z) = 1`. -/
theorem claim_C1_counterexample :
    (compare (.num (.fin 0)) (.num .nan) = 0 ∧
     compare (.num .nan) (.num (.fin 1)) = 0 ∧
     compare (.num (.fin 0)) (.num (.fin 1)) = -1) ∧
    (compare (.arr [.num (.fin 1), .num (.fin 9)])
       (.arr [.num .nan, .num (.fin 10)]) = -1 ∧
     compare (.arr [.num .nan, .num (.fin 10)])
       (.arr [.num (.fin 0), .num (.fin 11)]) = -1 ∧
     compare (.arr [.num (.fin 1), .num (.fin 9)])
       (.arr [.num (.fin 0), .num (.fin 11)]) = 1) := by
  refine ⟨⟨?_, ?_, ?_⟩, ⟨?_, ?_, ?_⟩⟩ <;>
    norm_num [compare_arr, lexLoop, compare_num, comparePrimitives,
      JSNum.ltB, JSNum.ltB_nan_right]

/-- C1 amended: over NaN-free values (every number a genuine number,
every date valid), the default comparator is transitive in all three
forms: strictly-below composes, strictly-above composes, and ties
compose. -/
theorem claim_C1_theorem (x y z : JSValue) (hnx : nanFree x = true)
    (hny : nanFree y = true) (hnz : nanFree z = true) :
    (compare x y < 0 → compare y z < 0 → compare x z < 0) ∧
    (compare x y > 0 → compare y z > 0 → compare x z > 0) ∧
    (compare x y = 0 → compare y z = 0 → compare x z = 0) := by
  have neg_of_lt : ∀ u v : JSValue, compare u v < 0 → compare u v = -1 := by
    intro u v huv
    rcases compare_range u v with h | h | h
    · exact h
    · rw [h] at huv
      norm_num at huv
    · rw [h] at huv
      norm_num at huv
  obtain ⟨t1, _, _, t4⟩ := compare_transAt x y z hnx hny hnz
  obtain ⟨s1, _, _, _⟩ := compare_transAt z y x hnz hny hnx
  refine ⟨?_, ?_, ?_⟩
  · intro p q
    rw [t1 (neg_of_lt x y p) (neg_of_lt y z q)]
    norm_num
  · intro p q
    have hyx : compare y x < 0 := by
      have := compare_antisym_all x y
      linarith
    have hzy : compare z y < 0 := by
      have := compare_antisym_all y z
      linarith
    have hzx := s1 (neg_of_lt z y hzy) (neg_of_lt y x hyx)
    have := compare_antisym_all x z
    rw [hzx] at this
    rw [this]
    norm_num
  · exact t4

/-- C1 amended, witness at `x = 0`, `y = 1`, `z = 2`. -/
theorem claim_C1_witness :
    nanFree (JSValue.num (.fin 0)) = true ∧
    ((compare (.num (.fin 0)) (.num (.fin 1)) < 0 →
        compare (.num (.fin 1)) (.num (.fin 2)) < 0 →
        compare (.num (.fin 0)) (.num (.fin 2)) < 0) ∧
     (compare (.num (.fin 0)) (.num (.fin 1)) > 0 →
        compare (.num (.fin 1)) (.num (.fin 2)) > 0 →
        compare (.num (.fin 0)) (.num (.fin 2)) > 0) ∧
     (compare (.num (.fin 0)) (.num (.fin 1)) = 0 →
        compare (.num (.fin 1)) (.num (.fin 2)) = 0 →
        compare (.num (.fin 0)) (.num (.fin 2)) = 0)) :=
  ⟨by decide,
   claim_C1_theorem (.num (.fin 0)) (.num (.fin 1)) (.num (.fin 2))
     (by decide) (by decide) (by decide)⟩

/-- C2: the default comparator is sign-exactly antisymmetric —
`compare x y` is the literal negation of `compare y x` for all values,
NaN included. -/
theorem claim_C2_theorem (x y : JSValue) : compare x y = -(compare y x) :=
  compare_antisym_all x y

/-- C3: the default comparator is reflexive-as-zero on every value, in
particular on NaN. -/
theorem claim_C3_theorem :
    (∀ x : JSValue, compare x x = 0) ∧ compare (.num .nan) (.num .nan) = 0 :=
  ⟨fun x => compare_refl_all x, compare_refl_all (.num .nan)⟩

/-- C9: a NaN number ties with every number, not only with NaN itself —
`compare(NaN, r) = 0` and `compare(r, NaN) = 0` for every number `r`,
finite or infinite. -/
theorem claim_C9_theorem (r : JSNum) :
    compare (.num .nan) (.num r) = 0 ∧ compare (.num r) (.num .nan) = 0 := by
  constructor <;>
    simp [compare_num, comparePrimitives, JSNum.ltB_nan_left, JSNum.ltB_nan_right]

/-- C5: when two values are classified into different default
categories, the result is decided by the category indexes alone
(in the order undefined, null, number, string, object, array, boolean,
date, pattern): -1 when the left category is earlier, 1 when later,
whatever the contents. -/
theorem claim_C5_theorem (x y : JSValue) (h : catIdx x ≠ catIdx y) :
    compare x y = if catIdx x < catIdx y then -1 else 1 := by
  rw [compare_cross h]
  by_cases hlt : catIdx x < catIdx y
  · rw [if_pos hlt]
    exact intCmp_eq_neg_one.mpr hlt
  · rw [if_neg hlt]
    exact intCmp_eq_one.mpr (by omega)

/-- C5 witness: a number sorts before a string by category alone. -/
theorem claim_C5_witness :
    catIdx (.num (.fin 1)) ≠ catIdx (.str [97]) ∧
    compare (.num (.fin 1)) (.str [97]) =
      if catIdx (.num (.fin 1)) < catIdx (.str [97]) then -1 else 1 :=
  ⟨by decide, claim_C5_theorem (.num (.fin 1)) (.str [97]) (by decide)⟩


/-! ### C10: the empty builder's structural fallback -/

theorem lastMatch_nil (x : JSValue) : lastMatch [] x = -1 := rfl

theorem ruleCompare_nil : ruleCompare [] (-1) = none := rfl

/-- C10: under `Builder.create().get()` (no rules at all) every value is
unclassified, so the structural fallback decides: a plain object on the
left of a non-object non-array compares -1 while the swapped call
returns 0, and an array on the left of a non-object non-array compares
1 while the swapped call returns 0. -/
theorem claim_C10_theorem (x y : JSValue) (hy1 : isObject y = false)
    (hy2 : isArray y = false) :
    (isObject x = true → Builder.create.get x y = -1 ∧ Builder.create.get y x = 0) ∧
    (isArray x = true → Builder.create.get x y = 1 ∧ Builder.create.get y x = 0) := by
  constructor
  · intro hx
    constructor
    · show compareWith [] x y = -1
      rw [compareWith.eq_def]
      simp [lastMatch_nil, ruleCompare_nil, hx, hy1]
    · show compareWith [] y x = 0
      rw [compareWith.eq_def]
      simp [lastMatch_nil, ruleCompare_nil, hy1, hy2]
  · intro hx
    have hxobj : isObject x = false := by
      cases x <;> simp_all [isArray, isObject]
    constructor
    · show compareWith [] x y = 1
      rw [compareWith.eq_def]
      simp [lastMatch_nil, ruleCompare_nil, hxobj, hx, hy2]
    · show compareWith [] y x = 0
      rw [compareWith.eq_def]
      simp [lastMatch_nil, ruleCompare_nil, hy1, hy2]

/-- C10 witness: `{}` against `null`, and `[]` against `null`. -/
theorem claim_C10_witness :
    (isObject JSValue.null = false ∧ isArray JSValue.null = false) ∧
    (isObject (JSValue.obj []) = true →
      Builder.create.get (.obj []) .null = -1 ∧
      Builder.create.get .null (.obj []) = 0) ∧
    (isArray (JSValue.arr []) = true →
      Builder.create.get (.arr []) .null = 1 ∧
      Builder.create.get .null (.arr []) = 0) :=
  ⟨⟨rfl, rfl⟩, (claim_C10_theorem (.obj []) .null rfl rfl).1,
   (claim_C10_theorem (.arr []) .null rfl rfl).2⟩

/-! ### C7: extending the default builder with a custom tagged type -/

/-- The predicate of the test-suite's extension rule:
`x => typeof x === 'object' && x !== null && x instanceof Box`. -/
def isBox : JSValue → Bool
  | .box _ => true
  | _ => false

/-- The UTF-16 code units of the string `value`, the field name of the
`Box` class. -/
def valueKey : List Nat := [118, 97, 108, 117, 101]

/-- `x.value` of a `Box` instance: the number stored in its single
`value` field (0 on anything else; the extension comparator is only
ever applied to two `Box` instances). -/
def boxValue : JSValue → ℚ
  | .box ((_, .num (.fin q)) :: _) => q
  | _ => 0

/-- The user-supplied comparator of the test-suite's extension rule:
`(x, y) => x.value - y.value`. -/
def boxCompare (x y : JSValue) : ℚ := boxValue x - boxValue y

/-- `new Box(q)`: a class instance whose own enumerable properties are
the single field `value` holding `q`. -/
def mkBox (q : ℚ) : JSValue := .box [(valueKey, .num (.fin q))]

/-- The default builder extended with the `Box` rule after all
built-ins, as in the test-suite. -/
def extendedBuilder : Builder := builder.ifType isBox boxCompare

/-- The comparator compiled from the extended builder. -/
def extendedCompare : JSValue → JSValue → ℚ := extendedBuilder.get

theorem extendedBuilder_plugins :
    extendedBuilder.plugins =
      [⟨isLiteral .undef, some (fun _ _ => 0)⟩,
       ⟨isLiteral .null, some (fun _ _ => 0)⟩,
       ⟨isNumber, some (comparePrimitives jsLt)⟩,
       ⟨isString, some (comparePrimitives jsLt)⟩,
       ⟨isObject, none⟩,
       ⟨isArray, none⟩,
       ⟨isBoolean, some (comparePrimitives jsLt)⟩,
       ⟨isDate, some (comparePrimitives jsLt)⟩,
       ⟨isRegExp, some (comparePrimitives jsLt)⟩,
       ⟨isBox, some boxCompare⟩] := rfl

/-- In the extended rule list the highest matching index of a `Box`
instance is the new rule's index 9 — even though a `Box` instance also
satisfies the earlier object predicate at index 4 — while every other
value keeps its default category. -/
theorem lastMatch_extended (x : JSValue) :
    lastMatch extendedBuilder.plugins x = if isBox x = true then 9 else catIdx x := by
  cases x <;>
    simp [lastMatch, lastMatchAux, extendedBuilder_plugins, catIdx, isLiteral, jsEq,
      isNumber, isString, isObject, isArray, isBoolean, isDate, isRegExp, isBox]

theorem ruleCompare_extended_9 :
    ruleCompare extendedBuilder.plugins 9 = some boxCompare := rfl

theorem catIdx_le_eight (x : JSValue) : catIdx x ≤ 8 := by
  cases x <;> simp [catIdx]

theorem catIdx_nonneg (x : JSValue) : 0 ≤ catIdx x := by
  cases x <;> simp [catIdx]

/-- C7: under the extended comparator every `Box` instance sorts after
every non-`Box` value (1 from the left, -1 from the right), and two
`Box` instances are compared by the user-supplied comparator. -/
theorem claim_C7_theorem :
    (∀ (l : List Entry) (y : JSValue), isBox y = false →
      extendedCompare (.box l) y = 1 ∧ extendedCompare y (.box l) = -1) ∧
    (∀ l m : List Entry,
      extendedCompare (.box l) (.box m) = boxCompare (.box l) (.box m)) := by
  constructor
  · intro l y hy
    have hx9 : lastMatch extendedBuilder.plugins (.box l) = 9 := by
      rw [lastMatch_extended]
      simp [isBox]
    have hyc : lastMatch extendedBuilder.plugins y = catIdx y := by
      rw [lastMatch_extended, if_neg]
      simp [hy]
    have hylt : catIdx y < 9 := by
      have := catIdx_le_eight y
      omega
    constructor
    · show compareWith extendedBuilder.plugins (.box l) y = 1
      rw [compareWith.eq_def]
      simp only [hx9, hyc]
      rw [if_pos (by omega : (9 : Int) ≠ catIdx y)]
      exact intCmp_eq_one.mpr hylt
    · show compareWith extendedBuilder.plugins y (.box l) = -1
      rw [compareWith.eq_def]
      simp only [hx9, hyc]
      rw [if_pos (by omega : catIdx y ≠ (9 : Int))]
      exact intCmp_eq_neg_one.mpr hylt
  · intro l m
    show compareWith extendedBuilder.plugins (.box l) (.box m) =
      boxCompare (.box l) (.box m)
    rw [compareWith.eq_def]
    have hx9 : lastMatch extendedBuilder.plugins (.box l) = 9 := by
      rw [lastMatch_extended]
      simp [isBox]
    have hy9 : lastMatch extendedBuilder.plugins (.box m) = 9 := by
      rw [lastMatch_extended]
      simp [isBox]
    simp [hx9, hy9, ruleCompare_extended_9]

/-- C7 witness: `new Box(1)` against the number 1, and two boxes. -/
theorem claim_C7_witness :
    isBox (JSValue.num (.fin 1)) = false ∧
    (extendedCompare (mkBox 1) (.num (.fin 1)) = 1 ∧
     extendedCompare (.num (.fin 1)) (mkBox 1) = -1) ∧
    extendedCompare (mkBox 1) (mkBox 2) = boxCompare (mkBox 1) (mkBox 2) :=
  ⟨rfl, claim_C7_theorem.1 [(valueKey, .num (.fin 1))] (.num (.fin 1)) rfl,
   claim_C7_theorem.2 [(valueKey, .num (.fin 1))] [(valueKey, .num (.fin 2))]⟩

/-! ### C8: builders are immutable values, comparators close over the list -/

/-- C8: every builder operation returns a new builder whose rule list
is the receiver's list with exactly one rule appended (the receiver's
own list appears unchanged on the right-hand side), and the comparator
produced by `get()` is a function of the rule list alone — two builders
holding the same rule list compile to the same comparator, so later
builder operations (which only ever produce new builders) cannot change
a comparator already obtained.  In this pure embedding, mutation of the
receiver is impossible by construction; the content of the claim is the
append equations and the fact that `get` factors through the rule
list. -/
theorem claim_C8_theorem :
    (∀ (b : Builder) (p : JSValue → Bool) (c : JSValue → JSValue → ℚ),
      (b.ifType p c).plugins = b.plugins ++ [⟨p, some c⟩]) ∧
    (∀ b : Builder, b.thenTypeObject.plugins = b.plugins ++ [⟨isObject, none⟩]) ∧
    (∀ b : Builder, b.thenTypeArray.plugins = b.plugins ++ [⟨isArray, none⟩]) ∧
    (∀ b1 b2 : Builder, b1.plugins = b2.plugins → b1.get = b2.get) := by
  refine ⟨fun b p c => rfl, fun b => rfl, fun b => rfl, fun b1 b2 h => ?_⟩
  show compareWith b1.plugins = compareWith b2.plugins
  rw [h]

/-- C8 witness: the default builder and a re-wrapped copy of its rule
list compile to the same comparator. -/
theorem claim_C8_witness :
    builder.plugins = (Builder.mk builder.plugins).plugins ∧
    builder.get = (Builder.mk builder.plugins).get :=
  ⟨rfl, claim_C8_theorem.2.2.2 builder (Builder.mk builder.plugins) rfl⟩


/-! ### C4: the compiled comparator follows the highest-match resolution -/

/-- The predicate of rule `k`, applied to `x` (`false` past the end of
the rule list). -/
def predAt (ps : List Plugin) (k : Nat) (x : JSValue) : Bool :=
  match ps.get? k with
  | some p => p.predicate x
  | none => false

/-- `i` is the highest rule index whose predicate accepts `x`, or `-1`
when no rule does: `i` is either `-1` or an in-range matching index,
and every rule past `i` rejects `x`. -/
abbrev IsHighestMatch (ps : List Plugin) (x : JSValue) (i : Int) : Prop :=
  (i = -1 ∨ (0 ≤ i ∧ i < ps.length ∧ predAt ps i.toNat x = true)) ∧
  (∀ k : Nat, k < ps.length → i < (k : Int) → predAt ps k x = false)

theorem lastMatchAux_append (ps qs : List Plugin) (x : JSValue) (k acc : Int) :
    lastMatchAux (ps ++ qs) x k acc =
      lastMatchAux qs x (k + ps.length) (lastMatchAux ps x k acc) := by
  induction ps generalizing k acc with
  | nil => simp [lastMatchAux]
  | cons p rest ih =>
    simp only [List.cons_append, lastMatchAux, List.length_cons]
    have harg : (k + ((rest.length : Nat) + 1 : Nat) : Int) = (k + 1) + rest.length := by
      push_cast
      ring
    rw [harg]
    exact ih (k + 1) (if p.predicate x then k else acc)

theorem lastMatch_snoc (ps : List Plugin) (p : Plugin) (x : JSValue) :
    lastMatch (ps ++ [p]) x =
      if p.predicate x then (ps.length : Int) else lastMatch ps x := by
  unfold lastMatch
  rw [lastMatchAux_append]
  by_cases h : p.predicate x = true
  · simp [lastMatchAux, h]
  · simp [lastMatchAux, h]

theorem predAt_append_left {ps qs : List Plugin} {k : Nat} (x : JSValue)
    (h : k < ps.length) : predAt (ps ++ qs) k x = predAt ps k x := by
  simp [predAt, List.getElem?_append_left h]

theorem predAt_concat_length (ps : List Plugin) (p : Plugin) (x : JSValue) :
    predAt (ps ++ [p]) ps.length x = p.predicate x := by
  simp [predAt, List.getElem?_concat_length]

theorem isHighestMatch_lastMatch (ps : List Plugin) (x : JSValue) :
    IsHighestMatch ps x (lastMatch ps x) := by
  induction ps using List.reverseRecOn with
  | nil =>
    refine ⟨Or.inl rfl, ?_⟩
    intro k hk _
    simp at hk
  | append_singleton ps p ih =>
    rw [lastMatch_snoc]
    by_cases h : p.predicate x = true
    · rw [if_pos h]
      constructor
      · right
        refine ⟨by omega, by simp, ?_⟩
        rw [Int.toNat_natCast, predAt_concat_length]
        exact h
      · intro k hk hlt
        exfalso
        simp at hk
        omega
    · rw [if_neg h]
      obtain ⟨ih1, ih2⟩ := ih
      constructor
      · rcases ih1 with h1 | ⟨h0, hlen, hp⟩
        · exact Or.inl h1
        · right
          refine ⟨h0, by simp; omega, ?_⟩
          rw [predAt_append_left x (by omega)]
          exact hp
      · intro k hk hlt
        by_cases hklen : k < ps.length
        · rw [predAt_append_left x hklen]
          exact ih2 k hklen hlt
        · have hkeq : k = ps.length := by
            simp at hk
            omega
          subst hkeq
          rw [predAt_concat_length]
          simpa using h

theorem isHighestMatch_unique {ps : List Plugin} {x : JSValue} {i j : Int}
    (hi : IsHighestMatch ps x i) (hj : IsHighestMatch ps x j) : i = j := by
  obtain ⟨hi1, hi2⟩ := hi
  obtain ⟨hj1, hj2⟩ := hj
  by_contra hne
  rcases hi1 with rfl | ⟨hi0, hilen, hip⟩
  · rcases hj1 with rfl | ⟨hj0, hjlen, hjp⟩
    · exact hne rfl
    · have hfalse := hi2 j.toNat (by omega) (by omega)
      simp [hjp] at hfalse
  · rcases hj1 with rfl | ⟨hj0, hjlen, hjp⟩
    · have hfalse := hj2 i.toNat (by omega) (by omega)
      simp [hip] at hfalse
    · rcases lt_trichotomy i j with hlt | heq | hlt
      · have hfalse := hi2 j.toNat (by omega) (by omega)
        simp [hjp] at hfalse
      · exact hne heq
      · have hfalse := hj2 i.toNat (by omega) (by omega)
        simp [hip] at hfalse

theorem isObject_false_of_isArray {x : JSValue} (h : isArray x = true) :
    isObject x = false := by
  cases x <;> simp_all [isArray, isObject]

/-- C4: a comparator compiled by `get()` from any rule list behaves as
the highest-match resolution describes.  Let `i`, `j` be the highest
matching indexes of `x`, `y` (or -1).  When `i ≠ j` the indexes alone
decide via `comparePrimitives`.  When `i = j` and the winning rule
carries a comparator, that comparator is applied.  When `i = j` and no
comparator is available (a bare type marker, or no match at all), the
comparison falls through to the structural helpers — `compareObjects`
when both values are object-shaped, `compareArrays` when both are
arrays — and returns 0 when the left value is neither object nor
array. -/
theorem claim_C4_theorem (ps : List Plugin) (x y : JSValue) (i j : Int)
    (hi : IsHighestMatch ps x i) (hj : IsHighestMatch ps y j) :
    (i ≠ j → compareWith ps x y = comparePrimitives intLtB i j) ∧
    (i = j → 0 ≤ i → ∀ cmp, ruleCompare ps i = some cmp →
      compareWith ps x y = cmp x y) ∧
    (i = j → ruleCompare ps i = none →
      ((isObject x = true → isObject y = true →
        compareWith ps x y = compareObjects (entriesOf x) (entriesOf y) (compareWith ps)) ∧
       (isArray x = true → isArray y = true →
        compareWith ps x y = compareArrays (itemsOf x) (itemsOf y) (compareWith ps)) ∧
       (isObject x = false → isArray x = false → isObject y = false → isArray y = false →
        compareWith ps x y = 0))) := by
  have hix : i = lastMatch ps x :=
    isHighestMatch_unique hi (isHighestMatch_lastMatch ps x)
  have hjy : j = lastMatch ps y :=
    isHighestMatch_unique hj (isHighestMatch_lastMatch ps y)
  subst hix
  subst hjy
  refine ⟨?_, ?_, ?_⟩
  · intro hne
    rw [compareWith.eq_def]
    simp [hne]
  · intro heq _ cmp hc
    rw [heq] at hc
    rw [compareWith.eq_def]
    simp [heq, hc]
  · intro heq hc
    rw [heq] at hc
    refine ⟨?_, ?_, ?_⟩
    · intro hox hoy
      rw [compareWith.eq_def]
      simp [heq, hc, hox, hoy, compareEntriesWith_eq, compareObjects]
    · intro hax hay
      have hox := isObject_false_of_isArray hax
      rw [compareWith.eq_def]
      simp [heq, hc, hox, hax, hay, compareItemsWith_eq, compareArrays]
    · intro hox hax _ _
      rw [compareWith.eq_def]
      simp [heq, hc, hox, hax]

/-- C4 witness: with the default rule list, a number (highest match 2)
against a string (highest match 3) is decided by the rule indexes. -/
theorem claim_C4_witness :
    IsHighestMatch builder.plugins (.num (.fin 1)) 2 ∧
    IsHighestMatch builder.plugins (.str [97]) 3 ∧
    ((2 : Int) ≠ 3 →
      compareWith builder.plugins (.num (.fin 1)) (.str [97]) =
        comparePrimitives intLtB 2 3) :=
  ⟨by decide, by decide,
   (claim_C4_theorem builder.plugins (.num (.fin 1)) (.str [97]) 2 3
     (by decide) (by decide)).1⟩


/-! ### C6: object comparison — sorted keys, keys before values -/

theorem strLtB_trans_not {a b c : List Nat} (h1 : strLtB a b = true)
    (h2 : strLtB c b = false) : strLtB a c = true := by
  by_contra hac
  have hacf : strLtB a c = false := by simpa using hac
  by_cases hca : strLtB c a = true
  · have hcb : strLtB c b = true := strLtB_trans hca h1
    simp [hcb] at h2
  · have hae : a = c := strLtB_eq_of_not hacf (by simpa using hca)
    subst hae
    simp [h1] at h2

theorem insertEntry_pairwise {m : List Entry} (e : Entry)
    (hm : m.Pairwise fun u v => strLtB v.1 u.1 = false) :
    (insertEntry e m).Pairwise fun u v => strLtB v.1 u.1 = false := by
  induction m with
  | nil => simp [insertEntry]
  | cons f fs ih =>
    rcases List.pairwise_cons.mp hm with ⟨hf, hfs⟩
    by_cases h : strLtB f.1 e.1 = true
    · simp only [insertEntry, if_pos h]
      rw [List.pairwise_cons]
      constructor
      · intro u hu
        rcases List.mem_cons.mp ((insertEntry_perm e fs).mem_iff.mp hu) with rfl | hufs
        · exact strLtB_asymm h
        · exact hf u hufs
      · exact ih hfs
    · simp only [insertEntry, if_neg h]
      rw [List.pairwise_cons]
      refine ⟨?_, hm⟩
      intro u hu
      rcases List.mem_cons.mp hu with rfl | hufs
      · simpa using h
      · by_contra hue
        have hlt : strLtB u.1 e.1 = true := by simpa using hue
        have : strLtB u.1 f.1 = true := strLtB_trans_not hlt (by simpa using h)
        exact absurd (hf u hufs) (by simp [this])

theorem sortEntries_sorted (l : List Entry) :
    (sortEntries l).Pairwise fun u v => strLtB v.1 u.1 = false := by
  induction l with
  | nil => simp [sortEntries]
  | cons e rest ih =>
    simp only [sortEntries]
    exact insertEntry_pairwise e ih

theorem sorted_nodupkeys_perm_eq :
    ∀ (l1 l2 : List Entry), l1.Perm l2 →
      l1.Pairwise (fun u v => strLtB v.1 u.1 = false) →
      l2.Pairwise (fun u v => strLtB v.1 u.1 = false) →
      (l1.map Prod.fst).Nodup → l1 = l2 := by
  intro l1
  induction l1 with
  | nil =>
    intro l2 hperm _ _ _
    exact (hperm.symm.eq_nil).symm
  | cons e t1 ih =>
    intro l2 hperm hs1 hs2 hnd
    cases l2 with
    | nil => exact absurd hperm.eq_nil (by simp)
    | cons f t2 =>
      have hef : e = f := by
        have he2 : e ∈ f :: t2 := hperm.mem_iff.mp (by simp)
        have hf1 : f ∈ e :: t1 := hperm.mem_iff.mpr (by simp)
        rcases List.mem_cons.mp he2 with h | he2t
        · exact h
        rcases List.mem_cons.mp hf1 with h | hf1t
        · exact h.symm
        have h1 : strLtB f.1 e.1 = false := (List.pairwise_cons.mp hs1).1 f hf1t
        have h2 : strLtB e.1 f.1 = false := (List.pairwise_cons.mp hs2).1 e he2t
        have hkey : e.1 = f.1 := strLtB_eq_of_not h2 h1
        exfalso
        have hfmem : f.1 ∈ t1.map Prod.fst := List.mem_map_of_mem Prod.fst hf1t
        rw [← hkey] at hfmem
        simp only [List.map_cons] at hnd
        exact (List.nodup_cons.mp hnd).1 hfmem
      subst hef
      have hpt : t1.Perm t2 := hperm.cons_inv
      have ht1 := (List.pairwise_cons.mp hs1).2
      have ht2 := (List.pairwise_cons.mp hs2).2
      have hndt : (t1.map Prod.fst).Nodup := by
        simp only [List.map_cons] at hnd
        exact (List.nodup_cons.mp hnd).2
      rw [ih t2 hpt ht1 ht2 hndt]

theorem sortEntries_eq_of_perm {l1 l2 : List Entry} (hperm : l1.Perm l2)
    (hnd : (l1.map Prod.fst).Nodup) : sortEntries l1 = sortEntries l2 := by
  apply sorted_nodupkeys_perm_eq
  · exact (sortEntries_perm l1).trans (hperm.trans (sortEntries_perm l2).symm)
  · exact sortEntries_sorted l1
  · exact sortEntries_sorted l2
  · exact (((sortEntries_perm l1).map Prod.fst).nodup_iff).mpr hnd

/-- Insertion-order independence of `compareObjects`: two entry lists
holding the same entries (in any orders), with pairwise distinct keys as
in any JavaScript object, compare as 0 whenever the value comparison is
reflexive-as-zero on the stored values. -/
theorem compareObjects_perm (lx ly : List Entry) (cmp : JSValue → JSValue → ℚ)
    (hperm : lx.Perm ly) (hnd : (lx.map Prod.fst).Nodup)
    (hrefl : ∀ e ∈ lx, cmp e.2 e.2 = 0) :
    compareObjects lx ly cmp = 0 := by
  unfold compareObjects
  rw [← sortEntries_eq_of_perm hperm hnd]
  apply lexLoop_refl
  intro e he
  apply entryCompare_refl
  exact hrefl e ((sortEntries_perm lx).mem_iff.mp he)

theorem compare_obj_eq (lx ly : List Entry) :
    compare (.obj lx) (.obj ly) = compareObjects lx ly compare := by
  rw [compare_objLike (show isObject (JSValue.obj lx) = true from rfl)
    (show isObject (JSValue.obj ly) = true from rfl)]
  rfl

/-- C6: the default comparator compares two plain objects with
`compareObjects`, handing itself down as the value comparison;
`compareObjects` sorts each side's entries by key independently (hence
insertion-order independence, conjunct two) and walks them in lockstep,
keys before values; consequently `compare({a:1,b:2}, {b:2,a:1}) = 0`
and `compare({a:1,b:1}, {a:1,c:1}) = -1`, the latter decided by the
key comparison "b" < "c" alone. -/
theorem claim_C6_theorem :
    (∀ lx ly : List Entry,
      compare (.obj lx) (.obj ly) = compareObjects lx ly compare) ∧
    (∀ (lx ly : List Entry) (cmp : JSValue → JSValue → ℚ), lx.Perm ly →
      (lx.map Prod.fst).Nodup → (∀ e ∈ lx, cmp e.2 e.2 = 0) →
      compareObjects lx ly cmp = 0) ∧
    compare (.obj [([97], .num (.fin 1)), ([98], .num (.fin 2))])
      (.obj [([98], .num (.fin 2)), ([97], .num (.fin 1))]) = 0 ∧
    compare (.obj [([97], .num (.fin 1)), ([98], .num (.fin 1))])
      (.obj [([97], .num (.fin 1)), ([99], .num (.fin 1))]) = -1 := by
  refine ⟨compare_obj_eq, compareObjects_perm, ?_, ?_⟩ <;>
    norm_num [compare_obj_eq, compareObjects, sortEntries, insertEntry, lexLoop,
      entryCompare, comparePrimitives, strLtB, compare_num, JSNum.ltB]

/-- C6 witness for the insertion-order conjunct: `{a:1,b:2}` against
`{b:2,a:1}` as entry lists. -/
theorem claim_C6_witness :
    ([([97], JSValue.num (.fin 1)), ([98], JSValue.num (.fin 2))] : List Entry).Perm
        [([98], JSValue.num (.fin 2)), ([97], JSValue.num (.fin 1))] ∧
    compareObjects [([97], JSValue.num (.fin 1)), ([98], JSValue.num (.fin 2))]
      [([98], JSValue.num (.fin 2)), ([97], JSValue.num (.fin 1))] compare = 0 :=
  ⟨List.Perm.swap _ _ _,
   claim_C6_theorem.2.1 _ _ compare (List.Perm.swap _ _ _) (by decide)
     fun e _ => compare_refl_all e.2⟩

end CompareJs
